import Mathlib

/-!
Shallow embedding of the appointment scheduler (src/app.py) together with
proofs about its scheduling core: the least-fragmenting slot search, the
commit path, the availability-revision path, and the capacity-bucketed
availability index.

Times are minutes since midnight, rendered as `Int` (Python integers).  The
HTTP layer converts `HH:MM` strings to minutes at the boundary
(`_convert_to_minutes`); the model works on minutes directly.  The Python
`availability_map` buckets hold provider object references compared by
identity; the model renders them as provider ids, which is faithful as long
as no duplicate-id re-registration takes place (none of the modelled
scenarios performs one).  Python's `list.remove` raises when the element is
absent and indexing raises when out of range; the model uses `List.erase`
and `Option`-returning lookups, and every theorem touching those paths
carries the corresponding presence hypotheses.
-/

/-- Appointment record kept in the process-wide `appointments` store
(src/app.py line 12).  `schedule` builds the record with `request_id`,
`provider_id` and the time slot; `update_provider_availability` may later
add a `status` key with value "Cancelled" (line 172), rendered here as the
optional `status` field.  The slot is kept in minutes; `_convert_from_minutes`
formatting is a boundary concern. -/
structure Appointment where
  request_id : String
  provider_id : String
  start : Int
  stop : Int
  status : Option String
deriving Repr, DecidableEq

/-- Provider entity (src/app.py lines 21-35): calendar of free slots sorted
by start, daily capacity bound, scheduled appointments `(request_id, start, end)`,
and the remaining-capacity counter `available_slots`. -/
structure Provider where
  id : String
  availability : List (Int × Int)
  max_daily_appointments : Int
  scheduled_appointments : List (String × Int × Int)
  available_slots : Int
deriving Repr, DecidableEq

/-- The availability index `availability_map` (src/app.py line 15): a
`defaultdict(list)` from remaining capacity to the bucket of providers at
that capacity, rendered as an association list from capacity to provider ids. -/
abbrev Buckets := List (Int × List String)

/-- Reads `availability_map[k]` without materializing the key: absent keys
behave as the empty bucket, exactly as `defaultdict(list)` reads do. -/
def bucketGet (m : Buckets) (k : Int) : List String :=
  (m.lookup k).getD []

/-- Python dict assignment `d[k] = v`: an existing key keeps its position
and gets the new value, a fresh key is appended at the end. -/
def dictSet {κ α : Type} [BEq κ] (m : List (κ × α)) (k : κ) (v : α) : List (κ × α) :=
  if m.any (fun p => p.1 == k) then
    m.map (fun p => if p.1 == k then (k, v) else p)
  else
    m ++ [(k, v)]

/-- Writes bucket `k`, materializing the key when `defaultdict` access
creates it: an existing key is updated in place, a fresh key is appended. -/
def bucketSet (m : Buckets) (k : Int) (v : List String) : Buckets :=
  dictSet m k v

/-- Dict assignment on the string-keyed `providers` and `appointments`
registries. -/
def alistSet {α : Type} (m : List (String × α)) (k : String) (v : α) : List (String × α) :=
  dictSet m k v

/-- Stable insertion into a list sorted ascending by slot start, placing the
new element before the first strictly larger start (matching the stability
of Python's `sorted(..., key=lambda x: x[0])`). -/
def insertByStart (x : Int × Int) : List (Int × Int) → List (Int × Int)
  | [] => [x]
  | y :: ys => if x.1 ≤ y.1 then x :: y :: ys else y :: insertByStart x ys

/-- Python `sorted(slots, key=lambda x: x[0])` (src/app.py lines 25-28 and
161-164): stable sort of the calendar by slot start. -/
def sortByStart : List (Int × Int) → List (Int × Int)
  | [] => []
  | x :: xs => insertByStart x (sortByStart xs)

/-- Descending insertion for integer keys. -/
def insertDesc (x : Int) : List Int → List Int
  | [] => [x]
  | y :: ys => if x ≥ y then x :: y :: ys else y :: insertDesc x ys

/-- Python `sorted(keys, reverse=True)` (src/app.py line 137): the bucket
keys in descending order.  Dict keys are unique, so stability is moot. -/
def sortDesc : List Int → List Int
  | [] => []
  | x :: xs => insertDesc x (sortDesc xs)

/-- Global state of the process (src/app.py lines 9-18): the provider
registry, the appointment store, and the availability index.  The per-id
lock table only matters for concurrency and has no sequential content. -/
structure SchedulerState where
  providers : List (String × Provider)
  appointments : List (String × Appointment)
  availability_map : Buckets
deriving Repr, DecidableEq

/-- Empty registries at process startup. -/
def emptyState : SchedulerState := ⟨[], [], []⟩

/-- Slot search `Provider.find_least_fragmenting_slot` (src/app.py lines 46-59), on the
calendar list.  The `enumerate` loop becomes structural recursion, the
recursive call's slot index being shifted by one; the Python not-found
result `(None, -1)` is `none`. -/
def find_least_fragmenting_slot (availability : List (Int × Int))
    (duration preferred_start preferred_end : Int) : Option (Int × Nat) :=
  match availability with
  | [] => none
  | (slot_start, slot_end) :: rest =>
    if slot_end ≤ preferred_start ∨ slot_start ≥ preferred_end then
      (find_least_fragmenting_slot rest duration preferred_start preferred_end).map
        (fun r => (r.1, r.2 + 1))
    else
      let adjusted_start := max slot_start preferred_start
      let adjusted_end := min slot_end preferred_end
      if adjusted_end - adjusted_start < duration then
        (find_least_fragmenting_slot rest duration preferred_start preferred_end).map
          (fun r => (r.1, r.2 + 1))
      else
        let left_fragment := adjusted_start - slot_start
        let right_fragment := slot_end - adjusted_end
        let proposed_start :=
          if left_fragment ≤ right_fragment then adjusted_start
          else adjusted_end - duration
        some (proposed_start, 0)

/-- Containment test from src/app.py line 168: some slot of `avail`
contains the appointment interval,
`any(slot_start <= start and end <= slot_end for ...)`. -/
def appointmentContained (avail : List (Int × Int)) (a : String × Int × Int) : Bool :=
  avail.any (fun s => decide (s.1 ≤ a.2.1) && decide (a.2.2 ≤ s.2))

/-- Commit path `Provider.schedule` (src/app.py lines 61-91).  Rejects when
`available_slots == 0`; otherwise appends the appointment, decrements the
capacity, replaces the slot at `slot_index` by its non-empty remainders,
removes the provider from its old bucket and, when the new capacity is
positive, inserts it at the front of the new bucket.  Python raises
`IndexError` on an out-of-range `slot_index`; that path is `none` here and
every theorem using it assumes the index is in range. -/
def Provider.schedule (p : Provider) (request_id : String)
    (start_time duration : Int) (slot_index : Nat) (m : Buckets) :
    Option (Provider × Buckets × Appointment) :=
  if p.available_slots = 0 then none
  else
    match p.availability[slot_index]? with
    | none => none
    | some (slot_start, slot_end) =>
      let new_slots :=
        (if slot_start < start_time then [(slot_start, start_time)] else []) ++
        (if start_time + duration < slot_end then [(start_time + duration, slot_end)] else [])
      let p' : Provider :=
        { p with
          scheduled_appointments :=
            p.scheduled_appointments ++ [(request_id, start_time, start_time + duration)]
          available_slots := p.available_slots - 1
          availability :=
            p.availability.take slot_index ++ new_slots ++ p.availability.drop (slot_index + 1) }
      let m1 := bucketSet m p.available_slots ((bucketGet m p.available_slots).erase p.id)
      let m2 :=
        if p'.available_slots > 0 then
          bucketSet m1 p'.available_slots (p.id :: bucketGet m1 p'.available_slots)
        else m1
      some (p', m2,
        { request_id := request_id
          provider_id := p.id
          start := start_time
          stop := start_time + duration
          status := none })

/-- Cancellation helper `Provider.update_scheduled_appointments` (src/app.py lines 93-96):
drops the cancelled ids and recomputes `available_slots`. -/
def Provider.update_scheduled_appointments (p : Provider) (to_cancel : List String) : Provider :=
  let sa := p.scheduled_appointments.filter (fun a => !(to_cancel.contains a.1))
  { p with
    scheduled_appointments := sa
    available_slots := p.max_daily_appointments - (sa.length : Int) }

/-- Provider construction (src/app.py lines 22-35): sorts the calendar by
start, initializes the counters, and appends the provider to the bucket of
its initial capacity when that capacity is positive. -/
def Provider.init (provider_id : String) (availability : List (Int × Int))
    (max_daily_appointments : Int) (m : Buckets) : Provider × Buckets :=
  let p : Provider :=
    { id := provider_id
      availability := sortByStart availability
      max_daily_appointments := max_daily_appointments
      scheduled_appointments := []
      available_slots := max_daily_appointments }
  (p, if p.available_slots > 0 then
        bucketSet m p.available_slots (bucketGet m p.available_slots ++ [provider_id])
      else m)

/-- Registration endpoint `add_provider` (src/app.py lines 99-106): registers (or replaces) the
provider under its id and lets the constructor index it. -/
def add_provider (st : SchedulerState) (provider_id : String)
    (availability : List (Int × Int)) (max_daily_appointments : Int) : SchedulerState :=
  let pm := Provider.init provider_id availability max_daily_appointments st.availability_map
  { st with
    providers := alistSet st.providers provider_id pm.1
    availability_map := pm.2 }

/-- Result of `schedule_appointment`, one constructor per JSON response of
src/app.py lines 109-149: the appointment on success, otherwise the error
message "Preferred provider not available", "No available time slot within
preferred range for the selected provider.", or "No available time slot
within preferred range.". -/
inductive ScheduleResult where
  | ok (a : Appointment)
  | unknownProvider
  | noSlotPreferred
  | noSlot
deriving Repr, DecidableEq

/-- One search-then-commit attempt against a single provider (the body shared
by both branches of src/app.py lines 126-147): slot search, commit, and on
success the registry, store and index updates.  `none` covers the Python
falls-through cases: no feasible slot (`slot_index == -1`) or a `schedule`
rejection. -/
def tryProvider (st : SchedulerState) (request_id : String)
    (duration preferred_start preferred_end : Int) (pid : String) :
    Option (SchedulerState × Appointment) :=
  match st.providers.lookup pid with
  | none => none
  | some provider =>
    match find_least_fragmenting_slot provider.availability duration preferred_start preferred_end with
    | none => none
    | some (start_time, slot_index) =>
      match provider.schedule request_id start_time duration slot_index st.availability_map with
      | none => none
      | some (p', m', appt) =>
        some ({ st with
                 providers := alistSet st.providers pid p'
                 availability_map := m'
                 appointments := alistSet st.appointments request_id appt }, appt)

/-- Inner loop of the unpreferenced scan (src/app.py lines 140-147):
first success over one bucket's point-in-time copy, front to back. -/
def tryBucketList (st : SchedulerState) (request_id : String)
    (duration preferred_start preferred_end : Int) :
    List String → Option (SchedulerState × Appointment)
  | [] => none
  | pid :: rest =>
    match tryProvider st request_id duration preferred_start preferred_end pid with
    | some r => some r
    | none => tryBucketList st request_id duration preferred_start preferred_end rest

/-- Outer loop of the unpreferenced scan (src/app.py lines 137-147): buckets
in descending capacity-key order.  State is threaded unchanged because every
failed attempt is side-effect free and the first success returns. -/
def scanBuckets (st : SchedulerState) (request_id : String)
    (duration preferred_start preferred_end : Int) :
    List Int → Option (SchedulerState × Appointment)
  | [] => none
  | k :: rest =>
    match tryBucketList st request_id duration preferred_start preferred_end
        (bucketGet st.availability_map k) with
    | some r => some r
    | none => scanBuckets st request_id duration preferred_start preferred_end rest

/-- Scheduling endpoint `schedule_appointment` (src/app.py lines 109-149).  With a preferred
provider: unknown id is an error, otherwise one attempt against that
provider only.  Without: scan the buckets in descending key order and take
the first success; exhaustion is the no-slot error.  (Python tests the
preference with truthiness, so a preferred id of `""` would behave as
absent; the model takes `Option String`.) -/
def schedule_appointment (st : SchedulerState) (request_id : String)
    (duration preferred_start preferred_end : Int)
    (preferred_provider : Option String) : SchedulerState × ScheduleResult :=
  match preferred_provider with
  | some pid =>
    if (st.providers.lookup pid).isNone then (st, ScheduleResult.unknownProvider)
    else
      match tryProvider st request_id duration preferred_start preferred_end pid with
      | some r => (r.1, ScheduleResult.ok r.2)
      | none => (st, ScheduleResult.noSlotPreferred)
  | none =>
    match scanBuckets st request_id duration preferred_start preferred_end
        (sortDesc (st.availability_map.map (fun b => b.1))) with
    | some r => (r.1, ScheduleResult.ok r.2)
    | none => (st, ScheduleResult.noSlot)

/-- Marks the stored appointment record cancelled,
`appointments[req_id]['status'] = "Cancelled"` (src/app.py line 172).
Python would raise on an unknown id; every id passed here was stored when
it was scheduled. -/
def markCancelled (l : List (String × Appointment)) (rid : String) :
    List (String × Appointment) :=
  l.map (fun q => if q.1 == rid then (q.1, { q.2 with status := some "Cancelled" }) else q)

/-- Revision endpoint `update_provider_availability` (src/app.py lines 152-176): unknown
provider is an error (`none`); otherwise replace the calendar by the sorted
new one, collect the ids of scheduled appointments no longer contained in
any new slot, mark those records cancelled in the store, and drop them from
the provider while recomputing its capacity.  The collected ids are returned
for the theorems' benefit; the availability index is — exactly as in the
source — not touched. -/
def update_provider_availability (st : SchedulerState) (provider_id : String)
    (newAvail : List (Int × Int)) : SchedulerState × Option (List String) :=
  match st.providers.lookup provider_id with
  | none => (st, none)
  | some p =>
    let p1 := { p with availability := sortByStart newAvail }
    let to_cancel :=
      (p1.scheduled_appointments.filter
        (fun a => !(appointmentContained p1.availability a))).map (fun a => a.1)
    let store := to_cancel.foldl markCancelled st.appointments
    let p2 := p1.update_scheduled_appointments to_cancel
    ({ st with
        providers := alistSet st.providers provider_id p2
        appointments := store }, some to_cancel)

/-! Specification vocabulary.

Definitions below render the spec's wording (overlap with the preferred
range, intersection length, leftover fragments, the calendar and capacity
invariants); the claim theorems relate them to the embedded source. -/

/-- Claim vocabulary: the slot overlaps the preferred range and their
intersection `[adjustedStart, adjustedEnd)` is at least `duration` long. -/
def slotFeasible (duration preferred_start preferred_end : Int) (s : Int × Int) : Prop :=
  preferred_start < s.2 ∧ s.1 < preferred_end ∧
    duration ≤ min s.2 preferred_end - max s.1 preferred_start

instance (duration preferred_start preferred_end : Int) (s : Int × Int) :
    Decidable (slotFeasible duration preferred_start preferred_end s) := by
  unfold slotFeasible; exact inferInstance

/-- Claim vocabulary: the proposed start anchors at `adjustedStart` when the
left leftover `adjustedStart - slotStart` is at most the right leftover
`slotEnd - adjustedEnd`, and at `adjustedEnd - duration` otherwise. -/
def proposedStartFor (duration preferred_start preferred_end : Int) (s : Int × Int) : Int :=
  let adjustedStart := max s.1 preferred_start
  let adjustedEnd := min s.2 preferred_end
  if adjustedStart - s.1 ≤ s.2 - adjustedEnd then adjustedStart else adjustedEnd - duration

/-- Spec section 8 calendar invariant: every slot is non-degenerate and the
calendar is sorted and pairwise non-overlapping (`end[i] <= start[i+1]`). -/
def CalendarOk (l : List (Int × Int)) : Prop :=
  (∀ s ∈ l, s.1 < s.2) ∧ l.Pairwise (fun a b => a.2 ≤ b.1)

instance (l : List (Int × Int)) : Decidable (CalendarOk l) := by
  unfold CalendarOk; exact inferInstance

/-- Spec section 8 containment invariant, per provider: no scheduled
appointment interval `[start, end)` overlaps any remaining free slot. -/
def noOverlapInvariant (p : Provider) : Prop :=
  ∀ a ∈ p.scheduled_appointments, ∀ s ∈ p.availability, ¬ (a.2.1 < s.2 ∧ s.1 < a.2.2)

instance (p : Provider) : Decidable (noOverlapInvariant p) := by
  unfold noOverlapInvariant; exact inferInstance

/-- Spec section 8 capacity invariant: every registered provider's counter
equals capacity minus booked count, and the provider sits in the availability
index exactly when its remaining capacity is positive, in the bucket of that
capacity, exactly once. -/
def capacityIndexOk (st : SchedulerState) : Prop :=
  ∀ q ∈ st.providers,
    q.2.available_slots =
      q.2.max_daily_appointments - (q.2.scheduled_appointments.length : Int) ∧
    (if 0 < q.2.available_slots then
       (bucketGet st.availability_map q.2.available_slots).count q.2.id = 1 ∧
         ∀ b ∈ st.availability_map, b.1 ≠ q.2.available_slots → q.2.id ∉ b.2
     else ∀ b ∈ st.availability_map, q.2.id ∉ b.2)

instance (st : SchedulerState) : Decidable (capacityIndexOk st) := by
  unfold capacityIndexOk; exact inferInstance

/-- Concatenation of the buckets named by a key list, in order. -/
def bucketsConcat (m : Buckets) : List Int → List String
  | [] => []
  | k :: ks => bucketGet m k ++ bucketsConcat m ks

/-- Spec section 4.3 `mostAvailableProvidersDescending()`: all providers of
the index, bucket by bucket from the highest capacity key down, front to
back within each bucket. -/
def mostAvailableProvidersDescending (st : SchedulerState) : List String :=
  bucketsConcat st.availability_map (sortDesc (st.availability_map.map (fun b => b.1)))

/-! Concrete scenario states. -/

/-- Scenario for C3: one provider of capacity 1 with slot `10:00-10:30`,
which is booked solid by `R1` and then freed again by an availability
revision that removes the interval. -/
def c3State : SchedulerState :=
  let st1 := add_provider emptyState "P1" [(600, 630)] 1
  let st2 := (schedule_appointment st1 "R1" 30 600 630 (some "P1")).1
  (update_provider_availability st2 "P1" [(0, 60)]).1

/-- Scenario for C5: `P1` at capacity 1 and `P2` at capacity 2, both with
the slot `09:00-12:00`. -/
def c5State : SchedulerState :=
  add_provider (add_provider emptyState "P1" [(540, 720)] 1) "P2" [(540, 720)] 2

/-- Scenario for C6: an appointment `10:00-10:30` is scheduled inside
`09:00-12:00`, then the availability is revised back to the full interval
`09:00-12:00`, which contains (hence retains) the appointment. -/
def c6State : SchedulerState :=
  let st1 := add_provider emptyState "P1" [(540, 720)] 2
  let st2 := (schedule_appointment st1 "R1" 30 600 630 (some "P1")).1
  (update_provider_availability st2 "P1" [(540, 720)]).1

/-- Scenario for C7: after booking `09:00-09:30` out of `09:00-12:00` the
provider's own current calendar is the single slot `09:30-12:00`. -/
def c7State : SchedulerState :=
  let st1 := add_provider emptyState "P1" [(540, 720)] 1
  (schedule_appointment st1 "R1" 30 540 720 (some "P1")).1

/-- Scenario for C8: a provider registered with capacity 0 and a free slot. -/
def c8State : SchedulerState :=
  add_provider emptyState "P1" [(540, 720)] 0

/-- Scenario for C9: one provider, capacity 1, slot `09:00-12:00`. -/
def c9State : SchedulerState :=
  add_provider emptyState "P1" [(540, 720)] 1

/-! Characterization of the slot search. -/

/-- A successful slot search returns the first feasible slot in calendar
order together with the fragment-minimizing proposed start. -/
theorem find_lfs_some_spec (d ps pe : Int) :
    ∀ (l : List (Int × Int)) (p : Int) (i : Nat),
      find_least_fragmenting_slot l d ps pe = some (p, i) →
      ∃ s, l[i]? = some s ∧ slotFeasible d ps pe s ∧
        (∀ t ∈ l.take i, ¬ slotFeasible d ps pe t) ∧
        p = proposedStartFor d ps pe s := by
  intro l
  induction l with
  | nil => intro p i h; simp [find_least_fragmenting_slot] at h
  | cons hd tl ih =>
    obtain ⟨ss, se⟩ := hd
    intro p i h
    simp only [find_least_fragmenting_slot] at h
    by_cases h1 : se ≤ ps ∨ ss ≥ pe
    · rw [if_pos h1, Option.map_eq_some'] at h
      obtain ⟨⟨p0, j⟩, hrec, heq⟩ := h
      injection heq with hp hi
      subst hp; subst hi
      obtain ⟨s, hs, hfeas, hpre, hprop⟩ := ih p0 j hrec
      refine ⟨s, by simpa using hs, hfeas, ?_, hprop⟩
      intro t ht
      rw [List.take_succ_cons] at ht
      rcases List.mem_cons.mp ht with rfl | ht
      · rintro ⟨hb1, hb2, -⟩; rcases h1 with h1 | h1 <;> omega
      · exact hpre t ht
    · rw [if_neg h1] at h
      by_cases h2 : min se pe - max ss ps < d
      · rw [if_pos h2, Option.map_eq_some'] at h
        obtain ⟨⟨p0, j⟩, hrec, heq⟩ := h
        injection heq with hp hi
        subst hp; subst hi
        obtain ⟨s, hs, hfeas, hpre, hprop⟩ := ih p0 j hrec
        refine ⟨s, by simpa using hs, hfeas, ?_, hprop⟩
        intro t ht
        rw [List.take_succ_cons] at ht
        rcases List.mem_cons.mp ht with rfl | ht
        · rintro ⟨hb1, hb2, hb3⟩; omega
        · exact hpre t ht
      · rw [if_neg h2] at h
        injection h with h'
        injection h' with hp hi
        subst hp; subst hi
        push_neg at h1
        refine ⟨(ss, se), by simp, ⟨by omega, by omega, by omega⟩, by simp, ?_⟩
        simp only [proposedStartFor]

/-- A failed slot search means no slot was feasible. -/
theorem find_lfs_none_spec (d ps pe : Int) :
    ∀ l : List (Int × Int),
      find_least_fragmenting_slot l d ps pe = none →
      ∀ t ∈ l, ¬ slotFeasible d ps pe t := by
  intro l
  induction l with
  | nil => intro _ t ht; simp at ht
  | cons hd tl ih =>
    obtain ⟨ss, se⟩ := hd
    intro h t ht
    simp only [find_least_fragmenting_slot] at h
    by_cases h1 : se ≤ ps ∨ ss ≥ pe
    · rw [if_pos h1, Option.map_eq_none'] at h
      rcases List.mem_cons.mp ht with rfl | ht
      · rintro ⟨hb1, hb2, -⟩; rcases h1 with h1 | h1 <;> omega
      · exact ih h t ht
    · rw [if_neg h1] at h
      by_cases h2 : min se pe - max ss ps < d
      · rw [if_pos h2, Option.map_eq_none'] at h
        rcases List.mem_cons.mp ht with rfl | ht
        · rintro ⟨hb1, hb2, hb3⟩; omega
        · exact ih h t ht
      · rw [if_neg h2] at h; exact absurd h (by simp)

/-- Feasibility makes the fragment-minimizing proposed start sit inside both
the slot and the preferred range. -/
theorem proposedStartFor_bounds (d ps pe : Int) (s : Int × Int)
    (h : slotFeasible d ps pe s) :
    s.1 ≤ proposedStartFor d ps pe s ∧ proposedStartFor d ps pe s + d ≤ s.2 ∧
      ps ≤ proposedStartFor d ps pe s ∧ proposedStartFor d ps pe s + d ≤ pe := by
  obtain ⟨h1, h2, h3⟩ := h
  simp only [proposedStartFor]
  split <;> omega

/-- C1: on a sorted, non-overlapping calendar, with positive duration and a
preferred range, the slot search scans slots in ascending start order, skips
slots that do not overlap the preferred range or whose intersection with it
is shorter than the duration, returns for the first feasible slot the pair
of the fragment-minimizing proposed start (anchored at `adjustedStart` when
the left leftover is at most the right one, at `adjustedEnd - duration`
otherwise) and the slot index, and returns not-found exactly when no slot is
feasible. -/
theorem c1_first_fit_slot_search (avail : List (Int × Int)) (d ps pe : Int)
    (hcal : CalendarOk avail) (hd : 0 < d) :
    (∀ p i, find_least_fragmenting_slot avail d ps pe = some (p, i) →
      ∃ s, avail[i]? = some s ∧ slotFeasible d ps pe s ∧
        (∀ t ∈ avail.take i, ¬ slotFeasible d ps pe t) ∧
        p = proposedStartFor d ps pe s) ∧
    (find_least_fragmenting_slot avail d ps pe = none ↔
      ∀ t ∈ avail, ¬ slotFeasible d ps pe t) := by
  refine ⟨fun p i h => find_lfs_some_spec d ps pe avail p i h, ?_, ?_⟩
  · exact find_lfs_none_spec d ps pe avail
  · intro hall
    cases hfind : find_least_fragmenting_slot avail d ps pe with
    | none => rfl
    | some r =>
      obtain ⟨s, hs, hfeas, -, -⟩ := find_lfs_some_spec d ps pe avail r.1 r.2 (by simpa using hfind)
      exact absurd hfeas (hall s (List.getElem?_mem hs))

/-- C1 witness: the spec's own example, slot `[0, 100)`, preferred range
`[0, 100)`, duration 30: the slot is feasible and the search anchors at 0. -/
theorem c1_first_fit_slot_search_witness :
    slotFeasible 30 0 100 ((0 : Int), (100 : Int)) ∧
      (0 : Int) = proposedStartFor 30 0 100 ((0 : Int), (100 : Int)) := by
  obtain ⟨s, hs, hfeas, -, hprop⟩ :=
    (c1_first_fit_slot_search [(0, 100)] 30 0 100 (by decide) (by decide)).1 0 0 (by decide)
  obtain rfl : ((0 : Int), (100 : Int)) = s := by simpa using hs
  exact ⟨hfeas, hprop⟩

/-- C10: whenever the slot search succeeds on a sorted, non-overlapping
calendar with positive duration, the proposed appointment lies inside both
the chosen slot and the preferred range. -/
theorem c10_result_within_slot_and_range (avail : List (Int × Int))
    (d ps pe p : Int) (i : Nat) (hcal : CalendarOk avail) (hd : 0 < d)
    (h : find_least_fragmenting_slot avail d ps pe = some (p, i)) :
    ∃ s, avail[i]? = some s ∧
      s.1 ≤ p ∧ p + d ≤ s.2 ∧ ps ≤ p ∧ p + d ≤ pe := by
  obtain ⟨s, hs, hfeas, -, rfl⟩ := find_lfs_some_spec d ps pe avail p i h
  obtain ⟨b1, b2, b3, b4⟩ := proposedStartFor_bounds d ps pe s hfeas
  exact ⟨s, hs, b1, b2, b3, b4⟩

/-- C10 witness: calendar `[(0, 100)]`, duration 30, preferred range
`[0, 100)`; the proposal 0 lies inside the slot and the range. -/
theorem c10_result_within_slot_and_range_witness :
    (0 : Int) ≤ (0 : Int) ∧ (0 : Int) + 30 ≤ (100 : Int) := by
  obtain ⟨s, hs, b1, b2, -, -⟩ :=
    c10_result_within_slot_and_range [(0, 100)] 30 0 100 0 0 (by decide) (by decide) (by decide)
  obtain rfl : ((0 : Int), (100 : Int)) = s := by simpa using hs
  exact ⟨b1, b2⟩

/-! Dictionary and bucket lemmas. -/

/-- Looking up a key that no entry carries yields nothing. -/
theorem lookup_eq_none_of_any_eq_false {κ α : Type} [BEq κ] [LawfulBEq κ]
    (k : κ) : ∀ m : List (κ × α), m.any (fun p => p.1 == k) = false →
      m.lookup k = none := by
  intro m
  induction m with
  | nil => intro _; rfl
  | cons q rest ih =>
    obtain ⟨qk, qv⟩ := q
    intro h
    simp only [List.any_cons, Bool.or_eq_false_iff] at h
    have hk : (k == qk) = false := by
      simp only [beq_eq_false_iff_ne] at h ⊢
      exact fun e => h.1 e.symm
    simp [List.lookup, hk, ih h.2]

/-- Updating every entry of the stored key rewrites the first one the lookup
sees. -/
theorem lookup_map_update {κ α : Type} [BEq κ] [LawfulBEq κ] (k : κ) (v : α) :
    ∀ m : List (κ × α), m.any (fun p => p.1 == k) = true →
      (m.map (fun p => if p.1 == k then (k, v) else p)).lookup k = some v := by
  intro m
  induction m with
  | nil => intro h; simp at h
  | cons q rest ih =>
    obtain ⟨qk, qv⟩ := q
    intro h
    by_cases hq : qk = k
    · subst hq
      simp only [List.map_cons]
      rw [if_pos (beq_self_eq_true qk)]
      simp [List.lookup]
    · have hb : (qk == k) = false := by simpa using hq
      have hk : (k == qk) = false := by
        simp only [beq_eq_false_iff_ne] at hb ⊢
        exact fun e => hb e.symm
      simp only [List.any_cons] at h
      simp only [List.map_cons]
      rw [if_neg (by simp [hb])]
      simp [List.lookup, hk, ih (by simpa [hb] using h)]

/-- Updating the stored key leaves every other key's lookup unchanged. -/
theorem lookup_map_update_ne {κ α : Type} [BEq κ] [LawfulBEq κ] (k k' : κ) (v : α)
    (hne : k' ≠ k) :
    ∀ m : List (κ × α),
      (m.map (fun p => if p.1 == k then (k, v) else p)).lookup k' = m.lookup k' := by
  intro m
  induction m with
  | nil => rfl
  | cons q rest ih =>
    obtain ⟨qk, qv⟩ := q
    by_cases hq : qk = k
    · subst hq
      have hk : (k' == qk) = false := by simpa using hne
      simp only [List.map_cons]
      rw [if_pos (beq_self_eq_true qk)]
      simp [List.lookup, hk, ih]
    · have hb : (qk == k) = false := by simpa using hq
      simp only [List.map_cons]
      rw [if_neg (by simp [hb])]
      by_cases hq' : k' = qk
      · subst hq'
        simp [List.lookup]
      · have hk : (k' == qk) = false := by simpa using hq'
        simp [List.lookup, hk, ih]

/-- Lookup of the assigned key after a dict assignment. -/
theorem lookup_dictSet_self {κ α : Type} [BEq κ] [LawfulBEq κ]
    (m : List (κ × α)) (k : κ) (v : α) : (dictSet m k v).lookup k = some v := by
  unfold dictSet
  by_cases hex : m.any (fun p => p.1 == k)
  · simpa [hex] using lookup_map_update k v m hex
  · simp only [Bool.not_eq_true] at hex
    simp [hex, List.lookup_append, lookup_eq_none_of_any_eq_false k m hex, List.lookup]

/-- Lookup of any other key after a dict assignment. -/
theorem lookup_dictSet_ne {κ α : Type} [BEq κ] [LawfulBEq κ]
    (m : List (κ × α)) (k k' : κ) (v : α) (hne : k' ≠ k) :
    (dictSet m k v).lookup k' = m.lookup k' := by
  unfold dictSet
  by_cases hex : m.any (fun p => p.1 == k)
  · simpa [hex] using lookup_map_update_ne k k' v hne m
  · simp only [Bool.not_eq_true] at hex
    have hk : (k' == k) = false := by simpa using hne
    simp [hex, List.lookup_append, List.lookup, hk]

/-- Reading the bucket just written. -/
theorem bucketGet_bucketSet_self (m : Buckets) (k : Int) (v : List String) :
    bucketGet (bucketSet m k v) k = v := by
  simp [bucketGet, bucketSet, lookup_dictSet_self]

/-- Reading any other bucket after a write. -/
theorem bucketGet_bucketSet_ne (m : Buckets) (k k' : Int) (v : List String)
    (hne : k' ≠ k) : bucketGet (bucketSet m k v) k' = bucketGet m k' := by
  simp [bucketGet, bucketSet, lookup_dictSet_ne m k k' v hne]

/-! Calendar machinery for the commit path. -/

/-- Splitting the non-overlap invariant around the slot at index `i`:
everything before it ends by its start, everything after begins at or after
its end. -/
theorem calendar_decompose (l : List (Int × Int)) (i : Nat) (ss se : Int)
    (h : l[i]? = some (ss, se)) (hpw : l.Pairwise (fun a b => a.2 ≤ b.1)) :
    (∀ t ∈ l.take i, t.2 ≤ ss) ∧ (∀ t ∈ l.drop (i + 1), se ≤ t.1) := by
  obtain ⟨hlt, hget⟩ := List.getElem?_eq_some_iff.mp h
  have hsplit : l = l.take i ++ ((ss, se) :: l.drop (i + 1)) := by
    conv_lhs => rw [← List.take_append_drop i l]
    rw [List.drop_eq_getElem_cons hlt, hget]
  rw [hsplit, List.pairwise_append] at hpw
  obtain ⟨-, hpw2, hcross⟩ := hpw
  refine ⟨fun t ht => hcross t ht (ss, se) (List.mem_cons_self _ _), ?_⟩
  exact fun t ht => (List.pairwise_cons.mp hpw2).1 t ht

/-- Carving an appointment contained in the slot at index `i` out of a valid
calendar leaves a valid calendar: the non-empty remainders preserve both the
sort order and the pairwise non-overlap. -/
theorem calendarOk_splice (l : List (Int × Int)) (i : Nat) (ss se startT dur : Int)
    (h : l[i]? = some (ss, se)) (hcal : CalendarOk l)
    (h1 : ss ≤ startT) (h2 : startT + dur ≤ se) (hd : 0 < dur) :
    CalendarOk (l.take i ++
      ((if ss < startT then [(ss, startT)] else []) ++
       (if startT + dur < se then [(startT + dur, se)] else [])) ++
      l.drop (i + 1)) := by
  obtain ⟨hwf, hpw⟩ := hcal
  obtain ⟨hleft, hright⟩ := calendar_decompose l i ss se h hpw
  have htake : (l.take i).Pairwise (fun a b => a.2 ≤ b.1) :=
    hpw.sublist (List.take_sublist i l)
  have hdrop : (l.drop (i + 1)).Pairwise (fun a b => a.2 ≤ b.1) :=
    hpw.sublist (List.drop_sublist (i + 1) l)
  have hmid : ∀ t ∈ ((if ss < startT then [(ss, startT)] else []) ++
      (if startT + dur < se then [(startT + dur, se)] else [])),
      ss ≤ t.1 ∧ t.2 ≤ se ∧ t.1 < t.2 := by
    intro t ht
    rcases List.mem_append.mp ht with ht | ht
    · by_cases hc : ss < startT
      · rw [if_pos hc] at ht
        simp only [List.mem_singleton] at ht
        subst ht
        exact ⟨le_refl _, by omega, hc⟩
      · rw [if_neg hc] at ht; simp at ht
    · by_cases hc : startT + dur < se
      · rw [if_pos hc] at ht
        simp only [List.mem_singleton] at ht
        subst ht
        exact ⟨by omega, le_refl _, hc⟩
      · rw [if_neg hc] at ht; simp at ht
  have hmidpw : ((if ss < startT then [(ss, startT)] else []) ++
      (if startT + dur < se then [(startT + dur, se)] else [])).Pairwise
        (fun a b => a.2 ≤ b.1) := by
    by_cases hc1 : ss < startT <;> by_cases hc2 : startT + dur < se <;>
      simp [hc1, hc2, List.pairwise_cons] <;> omega
  constructor
  · intro s hs
    rcases List.mem_append.mp hs with hs | hs
    · rcases List.mem_append.mp hs with hs | hs
      · exact hwf s (List.take_subset i l hs)
      · exact (hmid s hs).2.2
    · exact hwf s (List.drop_subset (i + 1) l hs)
  · rw [List.pairwise_append, List.pairwise_append]
    refine ⟨⟨htake, hmidpw, ?_⟩, hdrop, ?_⟩
    · intro a ha b hb
      exact le_trans (hleft a ha) (hmid b hb).1
    · intro a ha b hb
      rcases List.mem_append.mp ha with ha | ha
      · exact le_trans (hleft a ha) (by have := hright b hb; omega)
      · exact le_trans (hmid a ha).2.1 (hright b hb)

/-- Python's conditional remainder appends, written as the spec phrases
them: the non-empty intervals among the two candidates. -/
theorem remainders_filter (a b c d : Int) :
    (if a < b then [(a, b)] else []) ++ (if c < d then [(c, d)] else []) =
      [(a, b), (c, d)].filter (fun r => decide (r.1 < r.2)) := by
  by_cases h1 : a < b <;> by_cases h2 : c < d <;> simp [h1, h2]

/-- Explicit value of a successful commit. -/
theorem schedule_eq_some (p : Provider) (rid : String) (startT dur : Int) (i : Nat)
    (ss se : Int) (m : Buckets) (hcap : p.available_slots ≠ 0)
    (hslot : p.availability[i]? = some (ss, se)) :
    p.schedule rid startT dur i m = some
      ({ p with
          scheduled_appointments :=
            p.scheduled_appointments ++ [(rid, startT, startT + dur)]
          available_slots := p.available_slots - 1
          availability := p.availability.take i ++
            ((if ss < startT then [(ss, startT)] else []) ++
             (if startT + dur < se then [(startT + dur, se)] else [])) ++
            p.availability.drop (i + 1) },
       (if p.available_slots - 1 > 0 then
          bucketSet (bucketSet m p.available_slots ((bucketGet m p.available_slots).erase p.id))
            (p.available_slots - 1)
            (p.id :: bucketGet
              (bucketSet m p.available_slots ((bucketGet m p.available_slots).erase p.id))
              (p.available_slots - 1))
        else bucketSet m p.available_slots ((bucketGet m p.available_slots).erase p.id)),
       { request_id := rid, provider_id := p.id, start := startT,
         stop := startT + dur, status := none }) := by
  unfold Provider.schedule
  rw [if_neg hcap, hslot]

/-- C2: with remaining capacity and a valid slot index (with the provider
listed in its capacity bucket, as Python's `list.remove` requires), a
schedule call succeeds, appends `(requestId, start, start + duration)` to
the scheduled appointments, decrements the capacity by one, replaces the
calendar entry at the slot index in place by the non-empty remainders among
`[slotStart, start)` and `[start + duration, slotEnd)` — preserving sort
order whenever the appointment sits inside the slot of a valid calendar —
removes the provider from its old capacity bucket and inserts it at the
front of the new bucket exactly when the new capacity is positive. -/
theorem c2_schedule_commit (p : Provider) (rid : String) (startT dur : Int) (i : Nat)
    (ss se : Int) (m : Buckets)
    (hcap : 0 < p.available_slots)
    (hslot : p.availability[i]? = some (ss, se))
    (hmem : p.id ∈ bucketGet m p.available_slots) :
    ∃ p' m' a, p.schedule rid startT dur i m = some (p', m', a) ∧
      p'.scheduled_appointments =
        p.scheduled_appointments ++ [(rid, startT, startT + dur)] ∧
      p'.available_slots = p.available_slots - 1 ∧
      p'.id = p.id ∧ p'.max_daily_appointments = p.max_daily_appointments ∧
      p'.availability = p.availability.take i ++
        ([(ss, startT), (startT + dur, se)].filter (fun r => decide (r.1 < r.2))) ++
        p.availability.drop (i + 1) ∧
      (CalendarOk p.availability → ss ≤ startT → startT + dur ≤ se → 0 < dur →
        CalendarOk p'.availability) ∧
      a = { request_id := rid, provider_id := p.id, start := startT,
            stop := startT + dur, status := none } ∧
      bucketGet m' p.available_slots = (bucketGet m p.available_slots).erase p.id ∧
      (∀ k : Int, k ≠ p.available_slots →
        bucketGet m' k =
          if k = p.available_slots - 1 ∧ 0 < p.available_slots - 1
          then p.id :: bucketGet m k else bucketGet m k) := by
  have hcap' : p.available_slots ≠ 0 := by omega
  refine ⟨_, _, _, schedule_eq_some p rid startT dur i ss se m hcap' hslot,
    rfl, rfl, rfl, rfl, remainders_filter ss startT (startT + dur) se ▸ rfl, ?_, rfl, ?_, ?_⟩
  · intro hcal h1 h2 hd
    simpa using calendarOk_splice p.availability i ss se startT dur hslot hcal h1 h2 hd
  · by_cases hpos : p.available_slots - 1 > 0
    · rw [if_pos hpos, bucketGet_bucketSet_ne _ _ _ _ (by omega), bucketGet_bucketSet_self]
    · rw [if_neg hpos, bucketGet_bucketSet_self]
  · intro k hk
    by_cases hpos : p.available_slots - 1 > 0
    · rw [if_pos hpos]
      by_cases hke : k = p.available_slots - 1
      · subst hke
        rw [bucketGet_bucketSet_self, bucketGet_bucketSet_ne _ _ _ _ hk,
          if_pos ⟨rfl, hpos⟩]
      · rw [bucketGet_bucketSet_ne _ _ _ _ hke, bucketGet_bucketSet_ne _ _ _ _ hk,
          if_neg (fun hc => hke hc.1)]
    · rw [if_neg hpos, bucketGet_bucketSet_ne _ _ _ _ hk,
        if_neg (fun hc => hpos hc.2)]

/-- C2 witness: provider of capacity 2 with the single slot `[0, 100)`,
booked for `[10, 30)`: the commit succeeds with the predicted provider,
index and appointment, and the carved calendar is still valid. -/
theorem c2_schedule_commit_witness :
    Provider.schedule
      { id := "P", availability := [(0, 100)], max_daily_appointments := 2,
        scheduled_appointments := [], available_slots := 2 }
      "R" 10 20 0 [(2, ["P"])] =
      some ({ id := "P", availability := [(0, 10), (30, 100)],
              max_daily_appointments := 2,
              scheduled_appointments := [("R", 10, 30)], available_slots := 1 },
        [(2, []), (1, ["P"])],
        { request_id := "R", provider_id := "P", start := 10, stop := 30,
          status := none }) ∧
    CalendarOk [((0 : Int), (10 : Int)), ((30 : Int), (100 : Int))] := by
  obtain ⟨p', m', a, heq, h2, h3, h4, h5, h6, h7, h8, h9, h10⟩ :=
    c2_schedule_commit
      { id := "P", availability := [(0, 100)], max_daily_appointments := 2,
        scheduled_appointments := [], available_slots := 2 }
      "R" 10 20 0 0 100 [(2, ["P"])] (by decide) (by decide) (by decide)
  have hcal2 := h7 (by decide) (by decide) (by decide) (by decide)
  have hval : Provider.schedule
      { id := "P", availability := [(0, 100)], max_daily_appointments := 2,
        scheduled_appointments := [], available_slots := 2 }
      "R" 10 20 0 [(2, ["P"])] =
      some ({ id := "P", availability := [(0, 10), (30, 100)],
              max_daily_appointments := 2,
              scheduled_appointments := [("R", 10, 30)], available_slots := 1 },
        [(2, []), (1, ["P"])],
        { request_id := "R", provider_id := "P", start := 10, stop := 30,
          status := none }) := by decide
  refine ⟨hval, ?_⟩
  rw [hval] at heq
  injection heq with htriple
  obtain ⟨hP, -⟩ := Prod.mk.injEq .. ▸ htriple
  rw [← hP] at hcal2
  exact hcal2

/-- Position of a remainder slot relative to the chosen slot and the carved
appointment: it sits inside the slot and entirely on one side of the
appointment. -/
theorem mem_remainders (ss se startT dur : Int) (t : Int × Int)
    (ht : t ∈ (if ss < startT then [(ss, startT)] else []) ++
      (if startT + dur < se then [(startT + dur, se)] else []))
    (h1 : ss ≤ startT) (h2 : startT + dur ≤ se) (hd : 0 < dur) :
    (ss ≤ t.1 ∧ t.2 ≤ se) ∧ (t.2 ≤ startT ∨ startT + dur ≤ t.1) := by
  rcases List.mem_append.mp ht with ht | ht
  · by_cases hc : ss < startT
    · rw [if_pos hc] at ht
      simp only [List.mem_singleton] at ht
      subst ht
      exact ⟨⟨le_refl _, by omega⟩, Or.inl (le_refl _)⟩
    · rw [if_neg hc] at ht; simp at ht
  · by_cases hc : startT + dur < se
    · rw [if_pos hc] at ht
      simp only [List.mem_singleton] at ht
      subst ht
      exact ⟨⟨by omega, le_refl _⟩, Or.inr (le_refl _)⟩
    · rw [if_neg hc] at ht; simp at ht

/-- C6 counterexample: after scheduling `R1` at `10:00-10:30` inside
`09:00-12:00` and then revising the availability back to the full slot
`09:00-12:00` (which contains, hence retains, the appointment), the retained
appointment overlaps the free slot: the containment invariant does not
survive every operation. -/
theorem c6_counterexample :
    ¬ ∀ q ∈ c6State.providers, noOverlapInvariant q.2 := by decide

/-- C6 amended: a successful commit whose start and slot index come from the
slot search preserves the containment invariant — no scheduled appointment
of the resulting provider overlaps any remaining free slot. -/
theorem c6_schedule_preserves_containment (p : Provider) (rid : String)
    (d ps pe startT : Int) (i : Nat) (m : Buckets)
    (p' : Provider) (m' : Buckets) (a : Appointment)
    (hcal : CalendarOk p.availability)
    (hinv : noOverlapInvariant p)
    (hd : 0 < d)
    (hfind : find_least_fragmenting_slot p.availability d ps pe = some (startT, i))
    (hsched : p.schedule rid startT d i m = some (p', m', a)) :
    noOverlapInvariant p' := by
  obtain ⟨s, hs, hfeas, -, heq⟩ := find_lfs_some_spec d ps pe p.availability startT i hfind
  obtain ⟨b1, b2, -, -⟩ := proposedStartFor_bounds d ps pe s hfeas
  rw [← heq] at b1 b2
  obtain ⟨ss, se⟩ := s
  have hss : ss ≤ startT := b1
  have hse : startT + d ≤ se := b2
  by_cases hc : p.available_slots = 0
  · rw [Provider.schedule, if_pos hc] at hsched
    exact absurd hsched (by simp)
  · rw [schedule_eq_some p rid startT d i ss se m hc hs] at hsched
    rw [Option.some.injEq, Prod.mk.injEq] at hsched
    obtain ⟨hp', hrest⟩ := hsched
    obtain ⟨hleft, hright⟩ := calendar_decompose p.availability i ss se hs hcal.2
    have hchos : ((ss, se) : Int × Int) ∈ p.availability := List.getElem?_mem hs
    subst hp'
    rintro ⟨aid, a1, a2⟩ ha' ⟨t1, t2⟩ ht
    show ¬ (a1 < t2 ∧ t1 < a2)
    rcases List.mem_append.mp ha' with hold | hnew
    · have hprev : ∀ u ∈ p.availability, ¬ (a1 < u.2 ∧ u.1 < a2) :=
        fun u hu => hinv _ hold u hu
      rcases List.mem_append.mp ht with ht | ht
      · rcases List.mem_append.mp ht with ht | ht
        · exact hprev _ (List.take_subset i p.availability ht)
        · obtain ⟨hm, -⟩ := mem_remainders ss se startT d (t1, t2) ht hss hse hd
          have hm1 : ss ≤ t1 := hm.1
          have hm2 : t2 ≤ se := hm.2
          have hnot : ¬ (a1 < se ∧ ss < a2) := hprev (ss, se) hchos
          intro hcon
          exact hnot ⟨by omega, by omega⟩
      · exact hprev _ (List.drop_subset (i + 1) p.availability ht)
    · simp only [List.mem_singleton] at hnew
      obtain ⟨-, hnew2⟩ := Prod.mk.injEq .. ▸ hnew
      obtain ⟨ha1, ha2⟩ := Prod.mk.injEq .. ▸ hnew2
      rw [ha1, ha2]
      rcases List.mem_append.mp ht with ht | ht
      · rcases List.mem_append.mp ht with ht | ht
        · have hta : t2 ≤ ss := hleft (t1, t2) ht
          intro hcon
          omega
        · obtain ⟨-, hside⟩ := mem_remainders ss se startT d (t1, t2) ht hss hse hd
          have hside' : t2 ≤ startT ∨ startT + d ≤ t1 := hside
          intro hcon
          rcases hside' with hside' | hside' <;> omega
      · have hta : se ≤ t1 := hright (t1, t2) ht
        intro hcon
        omega

/-- C6 witness: capacity-2 provider with slot `[0, 100)`; committing the
search result for duration 30 in range `[0, 100)` keeps the containment
invariant. -/
theorem c6_schedule_preserves_containment_witness :
    noOverlapInvariant
      { id := "P", availability := [(30, 100)], max_daily_appointments := 2,
        scheduled_appointments := [("R", 0, 30)], available_slots := 1 } :=
  c6_schedule_preserves_containment
    { id := "P", availability := [(0, 100)], max_daily_appointments := 2,
      scheduled_appointments := [], available_slots := 2 }
    "R" 30 0 100 0 0 [(2, ["P"])]
    { id := "P", availability := [(30, 100)], max_daily_appointments := 2,
      scheduled_appointments := [("R", 0, 30)], available_slots := 1 }
    [(2, []), (1, ["P"])]
    { request_id := "R", provider_id := "P", start := 0, stop := 30, status := none }
    (by decide) (by decide) (by decide) (by decide) (by decide)

/-- C8: a provider with zero remaining capacity rejects every commit without
any mutation, and a scheduling request preferring that provider returns the
no-slot error with the whole scheduler state unchanged. -/
theorem c8_capacity_zero_rejected (st : SchedulerState) (rid : String)
    (d ps pe : Int) (pid : String) (p : Provider)
    (hp : st.providers.lookup pid = some p) (hcap : p.available_slots = 0) :
    (∀ (r : String) (startT dur : Int) (i : Nat) (m : Buckets),
        p.schedule r startT dur i m = none) ∧
    schedule_appointment st rid d ps pe (some pid) =
      (st, ScheduleResult.noSlotPreferred) := by
  have hnone : ∀ (r : String) (startT dur : Int) (i : Nat) (m : Buckets),
      p.schedule r startT dur i m = none := by
    intro r startT dur i m
    unfold Provider.schedule
    rw [if_pos hcap]
  refine ⟨hnone, ?_⟩
  have htry : tryProvider st rid d ps pe pid = none := by
    unfold tryProvider
    simp only [hp]
    cases hfind : find_least_fragmenting_slot p.availability d ps pe with
    | none => rfl
    | some r =>
      obtain ⟨startT, idx⟩ := r
      simp only [hnone]
  unfold schedule_appointment
  simp [hp, htry]

/-- C8 witness: the capacity-0 provider of `c8State` with a request inside
its free slot. -/
theorem c8_capacity_zero_rejected_witness :
    Provider.schedule
      { id := "P1", availability := [(540, 720)], max_daily_appointments := 0,
        scheduled_appointments := [], available_slots := 0 } "R1" 540 30 0 [] = none ∧
    schedule_appointment c8State "R1" 30 540 720 (some "P1") =
      (c8State, ScheduleResult.noSlotPreferred) := by
  obtain ⟨h1, h2⟩ := c8_capacity_zero_rejected c8State "R1" 30 540 720 "P1"
    { id := "P1", availability := [(540, 720)], max_daily_appointments := 0,
      scheduled_appointments := [], available_slots := 0 }
    (by decide) (by decide)
  exact ⟨h1 "R1" 540 30 0 [], h2⟩

/-! The unconstrained scan visits providers in descending-capacity
bucket order -/

/-- First-success over a concatenation splits into first-success over the
pieces. -/
theorem tryBucketList_append (st : SchedulerState) (rid : String)
    (d ps pe : Int) (l1 l2 : List String) :
    tryBucketList st rid d ps pe (l1 ++ l2) =
      match tryBucketList st rid d ps pe l1 with
      | some r => some r
      | none => tryBucketList st rid d ps pe l2 := by
  induction l1 with
  | nil => simp [tryBucketList]
  | cons x xs ih =>
    simp only [List.cons_append, tryBucketList]
    cases tryProvider st rid d ps pe x <;> simp [ih]

/-- The nested bucket scan equals the linear first-success over the
concatenation of the buckets in key order. -/
theorem scanBuckets_eq_concat (st : SchedulerState) (rid : String)
    (d ps pe : Int) :
    ∀ ks : List Int, scanBuckets st rid d ps pe ks =
      tryBucketList st rid d ps pe (bucketsConcat st.availability_map ks) := by
  intro ks
  induction ks with
  | nil => rfl
  | cons k rest ih =>
    simp only [scanBuckets, bucketsConcat, tryBucketList_append]
    cases tryBucketList st rid d ps pe (bucketGet st.availability_map k) <;> simp [ih]

/-- C5: an unpreferenced scheduling call is the first success of a
search-then-commit attempt along `mostAvailableProvidersDescending` — the
buckets in descending capacity order, front to back within each bucket —
with exhaustion yielding the no-slot result; in particular, with `P1` at
capacity 1 and `P2` at capacity 2 both free `09:00-12:00`, an unpreferenced
30-minute request in `09:00-12:00` is assigned to `P2`. -/
theorem c5_descending_capacity_scan :
    (∀ (st : SchedulerState) (rid : String) (d ps pe : Int),
      schedule_appointment st rid d ps pe none =
        match tryBucketList st rid d ps pe (mostAvailableProvidersDescending st) with
        | some r => (r.1, ScheduleResult.ok r.2)
        | none => (st, ScheduleResult.noSlot)) ∧
    (schedule_appointment c5State "R1" 30 540 720 none).2 =
      ScheduleResult.ok
        { request_id := "R1", provider_id := "P2", start := 540, stop := 570,
          status := none } := by
  constructor
  · intro st rid d ps pe
    unfold schedule_appointment mostAvailableProvidersDescending
    rw [scanBuckets_eq_concat]
  · decide

/-- C3 (code bug): in `c3State` the availability revision recomputed the
capacity of `P1` back to 1 but did not re-bucket it, so the capacity/index
invariant fails: `P1` has positive remaining capacity yet sits in no bucket
of the availability index. -/
theorem c3_revision_skips_rebucketing :
    ¬ capacityIndexOk c3State ∧
    (c3State.providers.lookup "P1").map Provider.available_slots = some 1 ∧
    (∀ b ∈ c3State.availability_map, "P1" ∉ b.2) := by
  exact ⟨by decide, by decide, by decide⟩

/-- C9 (code bug): no duration validation exists; a request of duration 0 is
scheduled as a zero-length appointment and consumes capacity, and a request
of duration -30 is scheduled with its end 30 minutes before its start. -/
theorem c9_nonpositive_duration_not_rejected :
    (schedule_appointment c9State "R1" 0 540 720 (some "P1")).2 =
      ScheduleResult.ok
        { request_id := "R1", provider_id := "P1", start := 540, stop := 540,
          status := none } ∧
    ((schedule_appointment c9State "R1" 0 540 720 (some "P1")).1.providers.lookup
        "P1").map Provider.available_slots = some 0 ∧
    (schedule_appointment c9State "R1" (-30) 540 720 (some "P1")).2 =
      ScheduleResult.ok
        { request_id := "R1", provider_id := "P1", start := 540, stop := 510,
          status := none } := by
  exact ⟨by decide, by decide, by decide⟩

/-- C7 counterexample: in `c7State` the provider's own current calendar is
`[(570, 720)]` (the slot left after booking `R1` at `09:00-09:30`), and
revising with exactly that calendar cancels `R1` rather than zero
appointments. -/
theorem c7_counterexample_self_revision_cancels :
    (c7State.providers.lookup "P1").map Provider.availability = some [(570, 720)] ∧
    (update_provider_availability c7State "P1" [(570, 720)]).2 = some ["R1"] := by
  exact ⟨by decide, by decide⟩

/-! Revision machinery. -/

/-- Lookup of the assigned key in the string-keyed registries. -/
theorem lookup_alistSet_self {α : Type} (m : List (String × α)) (k : String) (v : α) :
    (alistSet m k v).lookup k = some v :=
  lookup_dictSet_self m k v

/-- Explicit value of a revision on a registered provider. -/
theorem update_provider_availability_eq (st : SchedulerState) (pid : String)
    (c : List (Int × Int)) (p : Provider) (hp : st.providers.lookup pid = some p) :
    update_provider_availability st pid c =
      ({ st with
          providers := alistSet st.providers pid
            (Provider.update_scheduled_appointments { p with availability := sortByStart c }
              ((p.scheduled_appointments.filter
                (fun a => !(appointmentContained (sortByStart c) a))).map (fun a => a.1)))
          appointments :=
            ((p.scheduled_appointments.filter
              (fun a => !(appointmentContained (sortByStart c) a))).map (fun a => a.1)).foldl
              markCancelled st.appointments },
       some ((p.scheduled_appointments.filter
          (fun a => !(appointmentContained (sortByStart c) a))).map (fun a => a.1))) := by
  unfold update_provider_availability
  rw [hp]

/-- Appointments retained by a revision are always contained in the new
calendar: a retained id is absent from the cancelled ids, so the appointment
itself passed the containment test. -/
theorem retained_contained (sa : List (String × Int × Int)) (avail : List (Int × Int))
    (a : String × Int × Int)
    (ha : a ∈ sa.filter (fun x =>
      !(((sa.filter (fun y => !(appointmentContained avail y))).map
          (fun y => y.1)).contains x.1))) :
    appointmentContained avail a = true := by
  obtain ⟨hmem, hkeep⟩ := List.mem_filter.mp ha
  by_contra hnc
  have hnc' : appointmentContained avail a = false := by
    cases h : appointmentContained avail a
    · rfl
    · exact absurd h hnc
  have hin : a.1 ∈ (sa.filter (fun y => !(appointmentContained avail y))).map
      (fun y => y.1) :=
    List.mem_map.mpr ⟨a, List.mem_filter.mpr ⟨hmem, by simp [hnc']⟩, rfl⟩
  rw [← List.elem_iff] at hin
  simp only [List.contains] at hkeep
  rw [hin] at hkeep
  exact Bool.noConfusion hkeep

/-- With unique request ids, the retained appointments are exactly the
contained ones. -/
theorem retained_eq_contained_filter (sa : List (String × Int × Int))
    (avail : List (Int × Int)) (hnd : (sa.map (fun a => a.1)).Nodup) :
    sa.filter (fun x =>
      !(((sa.filter (fun y => !(appointmentContained avail y))).map
          (fun y => y.1)).contains x.1)) =
    sa.filter (fun x => appointmentContained avail x) := by
  apply List.filter_congr
  intro x hx
  by_cases hcx : appointmentContained avail x = true
  · rw [hcx]
    have hout : ¬ x.1 ∈ (sa.filter (fun y => !(appointmentContained avail y))).map
        (fun y => y.1) := by
      intro hmem
      obtain ⟨y, hy, hyx⟩ := List.mem_map.mp hmem
      obtain ⟨hymem, hyF⟩ := List.mem_filter.mp hy
      have : y = x := List.inj_on_of_nodup_map hnd hymem hx hyx
      subst this
      rw [hcx] at hyF
      exact Bool.noConfusion hyF
    simp [List.contains, List.elem_iff, hout]
  · have hxF : appointmentContained avail x = false := by
      cases h : appointmentContained avail x
      · rfl
      · exact absurd h hcx
    have hin : x.1 ∈ (sa.filter (fun y => !(appointmentContained avail y))).map
        (fun y => y.1) :=
      List.mem_map.mpr ⟨x, List.mem_filter.mpr ⟨hx, by simp [hxF]⟩, rfl⟩
    simp [List.contains, List.elem_iff, hin, hxF]

/-- Folding the per-id cancellation marking over a list of ids marks exactly
the stored records whose id occurs in the list. -/
theorem foldl_markCancelled_eq_map (ids : List String) :
    ∀ l : List (String × Appointment),
      ids.foldl markCancelled l =
        l.map (fun q => if ids.contains q.1
          then (q.1, { q.2 with status := some "Cancelled" }) else q) := by
  induction ids with
  | nil =>
    intro l
    simp only [List.foldl_nil]
    have : ∀ q : String × Appointment,
        (if ([] : List String).contains q.1
         then (q.1, { q.2 with status := some "Cancelled" }) else q) = q := by
      intro q; rfl
    simp only [this, List.map_id']
  | cons rid rest ih =>
    intro l
    simp only [List.foldl_cons]
    rw [ih (markCancelled l rid)]
    unfold markCancelled
    rw [List.map_map]
    apply List.map_congr_left
    intro q hq
    by_cases hrid : q.1 = rid
    · have hb : (q.1 == rid) = true := by simp [hrid]
      have hc : (rid :: rest).contains q.1 = true := by
        simp [List.contains, List.elem_cons, hrid]
      simp only [Function.comp_apply, hb, if_true, hc]
      by_cases hr : rest.contains q.1 = true
      · simp only [hr, if_true]
      · have hr' : rest.contains q.1 = false := by
          cases h : rest.contains q.1
          · rfl
          · exact absurd h hr
        simp only [hr', Bool.false_eq_true, if_false]
    · have hb : (q.1 == rid) = false := by simpa using hrid
      have hc : (rid :: rest).contains q.1 = rest.contains q.1 := by
        simp [List.contains, List.elem_cons, hrid]
      simp only [Function.comp_apply, hb, Bool.false_eq_true, if_false, hc]

/-- C4: revising a registered provider with unique request ids replaces its
calendar by the sorted new one, cancels exactly the scheduled appointments
whose interval is not contained in any new slot (returning their ids and
marking their stored records "Cancelled"), keeps the contained ones in
order, and recomputes the remaining capacity as the daily bound minus the
retained count.  The availability index is untouched. -/
theorem c4_revision_effects (st : SchedulerState) (pid : String)
    (c : List (Int × Int)) (p : Provider)
    (hp : st.providers.lookup pid = some p)
    (hnd : (p.scheduled_appointments.map (fun a => a.1)).Nodup) :
    ∃ st' ids, update_provider_availability st pid c = (st', some ids) ∧
      ids = (p.scheduled_appointments.filter
        (fun a => !(appointmentContained (sortByStart c) a))).map (fun a => a.1) ∧
      (∃ p', st'.providers.lookup pid = some p' ∧
        p'.availability = sortByStart c ∧
        p'.scheduled_appointments =
          p.scheduled_appointments.filter
            (fun a => appointmentContained (sortByStart c) a) ∧
        p'.available_slots =
          p.max_daily_appointments - (p'.scheduled_appointments.length : Int) ∧
        p'.id = p.id ∧ p'.max_daily_appointments = p.max_daily_appointments) ∧
      st'.appointments = st.appointments.map
        (fun q => if ids.contains q.1
          then (q.1, { q.2 with status := some "Cancelled" }) else q) ∧
      st'.availability_map = st.availability_map := by
  rw [update_provider_availability_eq st pid c p hp]
  refine ⟨_, _, rfl, rfl,
    ⟨_, lookup_alistSet_self _ _ _, rfl, ?_, rfl, rfl, rfl⟩, ?_, rfl⟩
  · exact retained_eq_contained_filter p.scheduled_appointments (sortByStart c) hnd
  · exact foldl_markCancelled_eq_map _ st.appointments

/-- C4 witness: a provider with one appointment `10:00-10:30` revised to the
calendar `[(0, 60)]`: the appointment is cancelled, its record marked, and
the capacity restored. -/
theorem c4_revision_effects_witness :
    update_provider_availability
      { providers := [("P",
          { id := "P", availability := [(540, 600), (630, 720)],
            max_daily_appointments := 2,
            scheduled_appointments := [("R1", 600, 630)], available_slots := 1 })],
        appointments := [("R1",
          { request_id := "R1", provider_id := "P", start := 600, stop := 630,
            status := none })],
        availability_map := [(1, ["P"])] } "P" [(0, 60)] =
      ({ providers := [("P",
          { id := "P", availability := [(0, 60)], max_daily_appointments := 2,
            scheduled_appointments := [], available_slots := 2 })],
         appointments := [("R1",
          { request_id := "R1", provider_id := "P", start := 600, stop := 630,
            status := some "Cancelled" })],
         availability_map := [(1, ["P"])] }, some ["R1"]) := by
  obtain ⟨st', ids, heq, hids, -, -, -⟩ := c4_revision_effects
    { providers := [("P",
        { id := "P", availability := [(540, 600), (630, 720)],
          max_daily_appointments := 2,
          scheduled_appointments := [("R1", 600, 630)], available_slots := 1 })],
      appointments := [("R1",
        { request_id := "R1", provider_id := "P", start := 600, stop := 630,
          status := none })],
      availability_map := [(1, ["P"])] } "P" [(0, 60)]
    { id := "P", availability := [(540, 600), (630, 720)],
      max_daily_appointments := 2,
      scheduled_appointments := [("R1", 600, 630)], available_slots := 1 }
    (by decide) (by decide)
  rw [heq]
  rw [show st' = (update_provider_availability
      { providers := [("P",
          { id := "P", availability := [(540, 600), (630, 720)],
            max_daily_appointments := 2,
            scheduled_appointments := [("R1", 600, 630)], available_slots := 1 })],
        appointments := [("R1",
          { request_id := "R1", provider_id := "P", start := 600, stop := 630,
            status := none })],
        availability_map := [(1, ["P"])] } "P" [(0, 60)]).1 from by rw [heq],
    show ids = (update_provider_availability
      { providers := [("P",
          { id := "P", availability := [(540, 600), (630, 720)],
            max_daily_appointments := 2,
            scheduled_appointments := [("R1", 600, 630)], available_slots := 1 })],
        appointments := [("R1",
          { request_id := "R1", provider_id := "P", start := 600, stop := 630,
            status := none })],
        availability_map := [(1, ["P"])] } "P" [(0, 60)]).2.getD [] from by
      rw [heq]
      rfl]
  decide

/-- C7 amended: revision is idempotent one step later — after revising a
registered provider with a calendar, revising it again with the same
calendar cancels zero appointments and leaves its scheduled appointments
unchanged.  (Revising with the provider's *current* calendar, by contrast,
cancels every scheduled appointment, because scheduling carves appointments
out of the calendar; see the counterexample.) -/
theorem c7_second_revision_cancels_nothing (st : SchedulerState) (pid : String)
    (c : List (Int × Int)) (p : Provider)
    (hp : st.providers.lookup pid = some p) :
    (update_provider_availability
      (update_provider_availability st pid c).1 pid c).2 = some [] ∧
    ((update_provider_availability
        (update_provider_availability st pid c).1 pid c).1.providers.lookup
          pid).map Provider.scheduled_appointments =
      ((update_provider_availability st pid c).1.providers.lookup pid).map
        Provider.scheduled_appointments := by
  have hst1 : (update_provider_availability st pid c).1.providers.lookup pid =
      some (Provider.update_scheduled_appointments
        { p with availability := sortByStart c }
        ((p.scheduled_appointments.filter
          (fun a => !(appointmentContained (sortByStart c) a))).map (fun a => a.1))) := by
    rw [update_provider_availability_eq st pid c p hp]
    exact lookup_alistSet_self _ _ _
  have hnil : ((Provider.update_scheduled_appointments
      { p with availability := sortByStart c }
      ((p.scheduled_appointments.filter
        (fun a => !(appointmentContained (sortByStart c) a))).map
          (fun a => a.1))).scheduled_appointments.filter
      (fun a => !(appointmentContained (sortByStart c) a))) = [] := by
    rw [List.filter_eq_nil_iff]
    intro a ha
    have hc := retained_contained p.scheduled_appointments (sortByStart c) a ha
    simp [hc]
  rw [update_provider_availability_eq _ pid c _ hst1]
  constructor
  · rw [show ((Provider.update_scheduled_appointments
      { p with availability := sortByStart c }
      ((p.scheduled_appointments.filter
        (fun a => !(appointmentContained (sortByStart c) a))).map
          (fun a => a.1))).scheduled_appointments.filter
      (fun a => !(appointmentContained
        (sortByStart c) a))).map (fun a => a.1) = ([] : List String) from by
        rw [hnil]
        rfl]
  · rw [hst1]
    rw [show ((Provider.update_scheduled_appointments
      { p with availability := sortByStart c }
      ((p.scheduled_appointments.filter
        (fun a => !(appointmentContained (sortByStart c) a))).map
          (fun a => a.1))).scheduled_appointments.filter
      (fun a => !(appointmentContained
        (sortByStart c) a))).map (fun a => a.1) = ([] : List String) from by
        rw [hnil]
        rfl]
    rw [lookup_alistSet_self]
    have hfid : ∀ q : Provider, q.update_scheduled_appointments [] =
        { q with available_slots :=
            q.max_daily_appointments - (q.scheduled_appointments.length : Int) } := by
      intro q
      unfold Provider.update_scheduled_appointments
      rw [show q.scheduled_appointments.filter
          (fun a => !(([] : List String).contains a.1)) = q.scheduled_appointments from
        List.filter_eq_self.mpr (fun a _ => rfl)]
    rw [hfid]
    rfl

/-- C7 witness: the `c7State` provider, revised twice with `[(540, 720)]`:
the second revision cancels nothing and keeps the schedule. -/
theorem c7_second_revision_cancels_nothing_witness :
    (update_provider_availability
      (update_provider_availability c7State "P1" [(540, 720)]).1 "P1" [(540, 720)]).2 =
      some [] ∧
    ((update_provider_availability
        (update_provider_availability c7State "P1" [(540, 720)]).1 "P1"
          [(540, 720)]).1.providers.lookup "P1").map Provider.scheduled_appointments =
      ((update_provider_availability c7State "P1" [(540, 720)]).1.providers.lookup
        "P1").map Provider.scheduled_appointments :=
  c7_second_revision_cancels_nothing c7State "P1" [(540, 720)]
    { id := "P1", availability := [(570, 720)], max_daily_appointments := 1,
      scheduled_appointments := [("R1", 540, 570)], available_slots := 0 }
    (by decide)
